import Mathlib

/-!
Verification of the dedup-and-catalog engine of a hard-link based
incremental backup program (backup.py).  The Python source is embedded
shallowly: pure helpers become Lean functions, the filesystem and the
sqlite catalog are passed around as explicit values, fallible steps
return Except, and 64-bit machine arithmetic is modelled on Int with an
explicit remainder by 2^64.
-/

namespace Backup

/-- BLOCK_SIZE = 2**27 from the source. -/
def BLOCK_SIZE : Nat := 2 ^ 27

/-- Embeds encode64 from backup.py:
value &= (1 << 64) - 1 is the nonnegative remainder modulo 2^64
(Python bitmasking of a possibly negative int); the test
(value & (1 << 63)) != 0 on that remainder is equivalent to
2^63 <= value, in which case 2^64 is subtracted. -/
def encode64 (value : Int) : Int :=
  let v := value % (2 ^ 64 : Int)
  if 2 ^ 63 ≤ v then v - 2 ^ 64 else v

/-- Embeds decode64 from backup.py: if value < 0 then value += 1 << 64. -/
def decode64 (value : Int) : Int :=
  if value < 0 then value + 2 ^ 64 else value

/-! ### Block store: linkOrCreateBlock

The filesystem facts the function consults are passed in explicitly:
the stat of the target path inside the destination set, and the first
match of the glob destination_root/*/hh/rest.  Filesystem mutations are
reported as a list of actions. -/

/-- Result of a stat: whether the path is a regular file and its size.
None stands for a path that does not exist. -/
structure FileInfo where
  isFile : Bool
  size : Nat
deriving DecidableEq, Repr

/-- Filesystem mutations performed under the destination root. -/
inductive FsAction
  | mkdirShard (shard : String)
  | hardLink (src dst : String)
  | writeFile (path : String) (len : Nat)
  | mkdirSet
  | createDatabase
  | rename (src dst : String)
deriving DecidableEq, Repr

/-- Classification of one ensure-block call (the source returns False
for the first two and True for the third; the counters distinguish all
three). -/
inductive BlockResult
  | Duplicate
  | LinkedFromPeer
  | Created
deriving DecidableEq, Repr

/-- Inputs of one linkOrCreateBlock call. -/
structure LocbEnv where
  dryRun : Bool
  /-- whether destinationSet/hash[:2] already exists as a directory -/
  shardDirExists : Bool
  /-- stat of destinationSet/hash[:2]/hash[2:], none if absent -/
  target : Option FileInfo
  /-- first match of destinationRoot.glob of */hash[:2]/hash[2:] -/
  globFirst : Option FileInfo
  /-- byte count returned by os.writev when the write happens -/
  written : Nat
deriving Repr

/-- stat test used on the target: blockFile.is_file() and
blockFile.stat().st_size == len(view). -/
def targetMatches (t : Option FileInfo) (len : Nat) : Bool :=
  match t with
  | some f => f.isFile && f.size == len
  | none => false

/-- The peer test of the source: ref and ref.is_file() and
ref.stat().st_size == len(view). -/
def globMatches (g : Option FileInfo) (len : Nat) : Bool :=
  match g with
  | some f => f.isFile && f.size == len
  | none => false

/-- Embeds linkOrCreateBlock from backup.py.  The hash names the block
file; len is len(view).  Returns the classification and the filesystem
actions performed, or an error for the fatal short-write RuntimeError.
The mkdir of the shard directory happens only when not dry-run and the
directory is absent; the duplicate check is skipped entirely in dry-run
mode (the source condition starts with "not optDryRun and"). -/
def linkOrCreateBlock (env : LocbEnv) (hash : String) (len : Nat) :
    Except String (BlockResult × List FsAction) :=
  let mk : List FsAction :=
    if !env.dryRun && !env.shardDirExists then [.mkdirShard (hash.take 2)] else []
  if !env.dryRun && targetMatches env.target len then
    .ok (.Duplicate, mk)
  else if globMatches env.globFirst len then
    .ok (.LinkedFromPeer,
      mk ++ (if env.dryRun then [] else
        [.hardLink ("peer/" ++ hash.take 2 ++ "/" ++ hash.drop 2)
                   (hash.take 2 ++ "/" ++ hash.drop 2)]))
  else if env.dryRun then
    .ok (.Created, mk)
  else if env.written == len then
    .ok (.Created, mk ++ [.writeFile (hash.take 2 ++ "/" ++ hash.drop 2) len])
  else
    .error "short write"

/-! ### Catalog rows and the File Engine (backupFile)

The sqlite tables are embedded as lists of rows; a query is a pure
function over them.  The filesystem reads of the rehash loop are given
as an explicit trace of read results, and the SHA-1 of the bytes read
at a given offset is an opaque oracle function (the engine never
inspects hash values, it only moves them around). -/

/-- One row of the file table (see the schema in backup.py). -/
structure FileRow where
  id : Nat
  source : Nat
  path : String
  type : Char
  lastmod : Int
  size : Nat
deriving DecidableEq, Repr

/-- One row of the block table, keyed by its owning file implicitly. -/
structure BlockRow where
  offset : Nat
  size : Nat
  hash : String
deriving DecidableEq, Repr

/-- Result of an os.stat call, reduced to the fields the engine uses. -/
structure StatInfo where
  mtime_ns : Nat
  size : Nat
deriving DecidableEq, Repr

/-- The reference-catalog query of backupFile:
select id, lastmod, size from file where source and path match and the
type is F; fetchone returns the first matching row. -/
def refQueryF (db : List FileRow) (src : Nat) (path : String) : Option FileRow :=
  db.find? (fun r => r.source == src && r.path == path && r.type == 'F')

/-- The reuse decision of backupFile (its labeled while loop, whose
body runs once with break on mismatch): reuse only when refSourceId is
nonzero (Python truthiness of the while condition), the query finds a
row, its lastmod equals the encoded stat mtime and its size equals the
stat size. -/
def shouldReuse (refSourceId : Nat) (refDb : List FileRow) (path : String)
    (st : StatInfo) : Bool :=
  if refSourceId == 0 then false
  else
    match refQueryF refDb refSourceId path with
    | none => false
    | some row => row.lastmod == encode64 st.mtime_ns && row.size == st.size

/-- Outcome of the hard-link attempt in linkReferenceBlock: success,
FileExistsError at the destination, or FileNotFoundError at the source. -/
inductive LinkOutcome
  | ok
  | alreadyExists
  | missing
deriving DecidableEq, Repr

/-- Embeds linkReferenceBlock from backup.py: make the shard directory
if absent (the function itself has no dry-run guard; its only caller
guards the call), then attempt the hard link; FileExistsError returns
True, FileNotFoundError logs and returns False, success returns True.
Returns (result, log lines, filesystem actions). -/
def linkReferenceBlock (shardDirExists : Bool) (outcome : LinkOutcome)
    (hash : String) : Bool × List String × List FsAction :=
  let mk : List FsAction :=
    if !shardDirExists then [.mkdirShard (hash.take 2)] else []
  match outcome with
  | .ok => (true, [],
      mk ++ [.hardLink ("ref/" ++ hash.take 2 ++ "/" ++ hash.drop 2)
                       (hash.take 2 ++ "/" ++ hash.drop 2)])
  | .alreadyExists => (true, [], mk)
  | .missing => (false, ["hash file not found in reference " ++ hash], mk)

/-- Per-hash filesystem facts consumed by the whole-file reuse loop. -/
structure RefLinkEnv where
  shardExists : String → Bool
  outcomeOf : String → LinkOutcome

/-- The whole-file reuse loop of backupFile: for each reference block
row, when not in dry-run mode call linkReferenceBlock and log when it
reports a missing source; then insert the block row into the
destination catalog regardless of the link result.  Returns the rows
inserted, the log lines, and the filesystem actions. -/
def reuseLoop (dryRun : Bool) (env : RefLinkEnv) :
    List BlockRow → List BlockRow × List String × List FsAction
  | [] => ([], [], [])
  | b :: rest =>
    let step : List String × List FsAction :=
      if dryRun then ([], [])
      else
        let r := linkReferenceBlock (env.shardExists b.hash) (env.outcomeOf b.hash) b.hash
        (r.2.1 ++ (if r.1 then [] else ["block file disappeared " ++ b.hash]), r.2.2)
    let rec_ := reuseLoop dryRun env rest
    (b :: rec_.1, step.1 ++ rec_.2.1, step.2 ++ rec_.2.2)

/-- Result of one os.readv call in the rehash loop: a byte count, or
an OSError. -/
inductive ReadEvent
  | ok (n : Nat)
  | err
deriving DecidableEq, Repr

/-- The read-hash-store loop of backupFile: read; stop on OSError;
stop on a zero read (EOF); otherwise record a block row of the bytes
read at the current offset and advance.  hashAt gives the SHA-1 hex of
the bytes read at a given offset.  A trace that runs out without an
EOF or error marker simply ends the loop (such traces do not arise for
real files). -/
def rehashRows (hashAt : Nat → String) : List ReadEvent → Nat → List BlockRow
  | [], _ => []
  | .err :: _, _ => []
  | .ok n :: rest, offset =>
    if n == 0 then []
    else { offset := offset, size := n, hash := hashAt offset } :: rehashRows hashAt rest (offset + n)

/-- The read trace of a well-behaved file of the given size: every
read returns min(BLOCK_SIZE, bytes remaining), then a zero read at
end of file. -/
def idealReads (sz : Nat) : List ReadEvent :=
  if sz = 0 then [.ok 0]
  else .ok (min BLOCK_SIZE sz) :: idealReads (sz - min BLOCK_SIZE sz)
termination_by sz
decreasing_by simp [BLOCK_SIZE]; omega

/-- Inputs of one backupFile call beyond its Python parameters: the
dry-run flag, the reference catalog, the reference block table (keyed
by file id), the filesystem facts for reference links, whether the
os.open of the source file raises (PermissionError and OSError are
both caught and end the call), and the read trace. -/
structure BackupFileEnv where
  dryRun : Bool
  refDb : List FileRow
  refBlocksOf : Nat → List BlockRow
  linkEnv : RefLinkEnv
  openFails : Bool
  reads : List ReadEvent
  hashAt : Nat → String

/-- What one backupFile call produces: the destination file row fields
(type is always F here, lastmod is the encoded stat mtime, size the
stat size), whether the whole-file reuse path was taken, the block
rows inserted, the log lines, and the filesystem actions. -/
structure BFOut where
  fileType : Char
  lastmod : Int
  size : Nat
  reused : Bool
  blocks : List BlockRow
  logs : List String
  actions : List FsAction

/-- Embeds backupFile from backup.py: catalog the file (type F),
clear its prior block rows, attempt whole-file reuse against the
reference catalog, otherwise open and rehash block by block. -/
def backupFile (refSourceId : Nat) (relativePath : String) (st : StatInfo)
    (env : BackupFileEnv) : BFOut :=
  let base : BFOut :=
    { fileType := 'F', lastmod := encode64 st.mtime_ns, size := st.size,
      reused := false, blocks := [], logs := [], actions := [] }
  let reusePath : Option BFOut :=
    if refSourceId == 0 then none
    else match refQueryF env.refDb refSourceId relativePath with
      | none => none
      | some row =>
        if row.lastmod == encode64 st.mtime_ns && row.size == st.size then
          let r := reuseLoop env.dryRun env.linkEnv (env.refBlocksOf row.id)
          some { base with reused := true, blocks := r.1, logs := r.2.1, actions := r.2.2 }
        else none
  match reusePath with
  | some out => out
  | none =>
    if env.openFails then { base with logs := ["open failed " ++ relativePath] }
    else { base with blocks := rehashRows env.hashAt env.reads 0 }

/-- Sum of the sizes of a list of block rows. -/
def sumSizes (l : List BlockRow) : Nat := (l.map (fun b => b.size)).sum

/-- The block rows cover a contiguous gap-free byte range starting at
the given offset. -/
def Contiguous : Nat → List BlockRow → Prop
  | _, [] => True
  | off, b :: rest => b.offset = off ∧ Contiguous (off + b.size) rest

/-- Every block row except the last has size exactly BLOCK_SIZE. -/
def nonFinalFull : List BlockRow → Prop
  | [] => True
  | [_] => True
  | b :: rest => b.size = BLOCK_SIZE ∧ nonFinalFull rest

/-- The invariant claimed for the block rows of a File row of type F:
sizes sum to the file size, offsets are contiguous from 0, every size
is at most BLOCK_SIZE and every non-final size is exactly BLOCK_SIZE. -/
def blocksInvariant (out : BFOut) : Prop :=
  sumSizes out.blocks = out.size ∧ Contiguous 0 out.blocks ∧
  (∀ b ∈ out.blocks, b.size ≤ BLOCK_SIZE) ∧ nonFinalFull out.blocks

/-! ### Tree walker: child dispatch and error handling (backupDirectory) -/

/-- What an lstat of a directory child would report it to be. -/
inductive FileKind
  | regular
  | directory
  | symlink
  | other
deriving DecidableEq, Repr

/-- What a symlink target fully resolves to.  Full resolution never
yields a symlink. -/
inductive ResolvedKind
  | regular
  | directory
  | other
deriving DecidableEq, Repr

/-- OS errors distinguished by the walker: PermissionError,
FileNotFoundError, and every other OSError. -/
inductive OSErrorKind
  | permission
  | fileNotFound
  | otherOS
deriving DecidableEq, Repr

/-- A directory child as the walker may encounter it: its own (lstat)
kind and, when it is a symlink, what the target resolves to (none for
a dangling link). -/
structure ChildEntry where
  lstatKind : FileKind
  targetKind : Option ResolvedKind
deriving DecidableEq, Repr

/-- The st = child.stat() call of backupDirectory.  pathlib stat
follows symlinks, so for a symlink it reports the resolved target,
raising FileNotFoundError for a dangling link; for anything else it
reports the entry itself. -/
def statKind (c : ChildEntry) : Except OSErrorKind FileKind :=
  match c.lstatKind with
  | .symlink =>
    match c.targetKind with
    | none => .error .fileNotFound
    | some .regular => .ok .regular
    | some .directory => .ok .directory
    | some .other => .ok .other
  | k => .ok k

/-- Where backupDirectory sends a child. -/
inductive Dispatch
  | toSymlinkHandler
  | recurseDirectory
  | toFileEngine
  | skip
deriving DecidableEq, Repr

/-- The dispatch chain of backupDirectory: stat the child, then test
S_ISLNK, S_ISDIR, S_ISREG on the returned mode in that order; special
files are silently skipped. -/
def dispatchChild (c : ChildEntry) : Except OSErrorKind Dispatch :=
  match statKind c with
  | .error e => .error e
  | .ok k =>
    if k = .symlink then .ok .toSymlinkHandler
    else if k = .directory then .ok .recurseDirectory
    else if k = .regular then .ok .toFileEngine
    else .ok .skip

/-- The per-child try of backupDirectory: only PermissionError is
caught (the child is skipped and the loop continues). -/
def handleChild (r : Except OSErrorKind Unit) : Except OSErrorKind Unit :=
  match r with
  | .error .permission => .ok ()
  | r => r

/-- The child loop of backupDirectory over the results of the try body
for each child in order: a caught error skips the child; any other
error propagates out of the loop (and hence out of the recursive
walk). -/
def walkChildren : List (Except OSErrorKind Unit) → Except OSErrorKind Unit
  | [] => .ok ()
  | r :: rest =>
    match handleChild r with
    | .ok _ => walkChildren rest
    | .error e => .error e

/-! ### Reference set selection (selectReferenceBackupSet) -/

/-- Python str.split of a character list on the dash character: the
result always has at least one field, and empty fields are kept
(so "a-".split gives ["a", ""], and "".split gives [""]). -/
def splitOnDash : List Char → List (List Char)
  | [] => [[]]
  | c :: rest =>
    match splitOnDash rest with
    | [] => if c = '-' then [[], []] else [[c]]
    | t :: ts => if c = '-' then [] :: t :: ts else (c :: t) :: ts

/-- Accumulating decimal value of a digit run; none on a non-digit. -/
def digitsVal (acc : Nat) : List Char → Option Nat
  | [] => some acc
  | c :: rest =>
    if c.isDigit then digitsVal (acc * 10 + (c.toNat - 48)) rest else none

/-- Python int() on a string, for the sign-and-digits forms: an
optional leading minus followed by at least one decimal digit; none
models the ValueError raise on anything else. -/
def parseInt : List Char → Option Int
  | [] => none
  | '-' :: rest =>
    match rest with
    | [] => none
    | _ => (digitsVal 0 rest).map (fun n => -(n : Int))
  | l => (digitsVal 0 l).map (fun n => (n : Int))

/-- The sortkey closure of selectReferenceBackupSet: split the name on
dashes; a single field sorts as (name, 0); otherwise the key is
(first field, int(second field)).  int() of a second field that is not
an integer raises ValueError in the source; that is modelled as none. -/
def sortkey (name : String) : Option (String × Int) :=
  match (splitOnDash name.data).map (fun cs => String.mk cs) with
  | [p] => some (p, 0)
  | p :: s :: _ =>
    match parseInt s.data with
    | some k => some (p, k)
    | none => none
  | [] => none

/-- Strict code-point lexicographic comparison of the characters of
two strings, as Python compares strings. -/
def strLT (a b : String) : Prop :=
  List.Lex (fun c d : Char => c < d) a.data b.data

instance : DecidableRel strLT := fun a b =>
  inferInstanceAs (Decidable (List.Lex (fun c d : Char => c < d) a.data b.data))

/-- Python tuple comparison on (str, int) keys: lexicographic, with
the strings compared by code points. -/
def keyLE (a b : String × Int) : Prop :=
  strLT a.1 b.1 ∨ (a.1 = b.1 ∧ a.2 ≤ b.2)

instance : DecidableRel keyLE := fun a b =>
  inferInstanceAs (Decidable (strLT a.1 b.1 ∨ (a.1 = b.1 ∧ a.2 ≤ b.2)))

instance : IsTotal (String × Int) keyLE :=
  ⟨by
    intro a b
    unfold keyLE strLT
    rcases trichotomous_of (List.Lex (fun c d : Char => c < d)) a.1.data b.1.data
        with h | h | h
    · exact Or.inl (Or.inl h)
    · have he : a.1 = b.1 := by
        have hl : a.1.toList = b.1.toList := h
        exact String.toList_inj.mp hl
      rcases le_total a.2 b.2 with h2 | h2
      · exact Or.inl (Or.inr ⟨he, h2⟩)
      · exact Or.inr (Or.inr ⟨he.symm, h2⟩)
    · exact Or.inr (Or.inl h)⟩

instance : IsTrans (String × Int) keyLE :=
  ⟨by
    intro a b c hab hbc
    unfold keyLE strLT at hab hbc ⊢
    rcases hab with h1 | ⟨e1, l1⟩
    · rcases hbc with h2 | ⟨e2, l2⟩
      · exact Or.inl (trans_of (List.Lex (fun c d : Char => c < d)) h1 h2)
      · exact Or.inl (e2 ▸ h1)
    · rcases hbc with h2 | ⟨e2, l2⟩
      · exact Or.inl (e1 ▸ h2)
      · exact Or.inr ⟨e1.trans e2, le_trans l1 l2⟩⟩

/-- Names paired with their sort keys, ordered by key. -/
def keyedLE (a b : String × (String × Int)) : Prop := keyLE a.2 b.2

instance : DecidableRel keyedLE := fun a b =>
  inferInstanceAs (Decidable (keyLE a.2 b.2))

instance : IsTotal (String × (String × Int)) keyedLE :=
  ⟨fun a b => total_of keyLE a.2 b.2⟩

instance : IsTrans (String × (String × Int)) keyedLE :=
  ⟨fun _ _ _ h1 h2 => trans_of keyLE h1 h2⟩

/-- The glob pattern [0-9]* of the source: the first character of the
name is a decimal digit. -/
def matchesDigitGlob (s : String) : Bool :=
  match s.data with
  | [] => false
  | ch :: _ => ch.isDigit

/-- The children of the destination root that the selection keeps:
those matching the digit glob that are directories.  children lists
the direct children as (name, is_dir) pairs. -/
def qualifyingNames (children : List (String × Bool)) : List String :=
  (children.filter (fun c => matchesDigitGlob c.1 && c.2)).map Prod.fst

/-- Pair every name with its sort key; none when any key computation
raises (Python ValueError aborts the session). -/
def keyedOf : List String → Option (List (String × (String × Int)))
  | [] => some []
  | n :: rest =>
    match sortkey n, keyedOf rest with
    | some k, some t => some ((n, k) :: t)
    | _, _ => none

/-- Embeds selectReferenceBackupSet from backup.py: keep the directory
children matching [0-9]*, sort them by sortkey with Python's stable
sort, and take names[-1] (none when the list is empty). -/
def selectReferenceBackupSet (children : List (String × Bool)) :
    Except Unit (Option String) :=
  match keyedOf (qualifyingNames children) with
  | none => .error ()
  | some keyed =>
    .ok (((keyed.insertionSort keyedLE).getLast?).map Prod.fst)

/-- Whether an action writes file contents. -/
def isWrite : FsAction → Bool
  | .writeFile _ _ => true
  | _ => false

/-- Whether an action creates a hard link. -/
def isLink : FsAction → Bool
  | .hardLink _ _ => true
  | _ => false

/-! ### A run of ensure-block calls, real versus dry (backup, linkOrCreateBlock)

The destination set's block files are a list of (hash, size) pairs; a
run folds ensure-block calls over that state, applying the filesystem
actions of each call.  In dry-run mode no action is performed, so the
state never changes. -/

/-- Size of the block file stored for a hash, none when absent. -/
def lookupSize (l : List (String × Nat)) (h : String) : Option Nat :=
  match l.find? (fun p => p.1 == h) with
  | some p => some p.2
  | none => none

/-- stat of the target path for a hash inside the destination set. -/
def targetOf (dest : List (String × Nat)) (h : String) : Option FileInfo :=
  (lookupSize dest h).map (fun sz => ⟨true, sz⟩)

/-- First match of the peer glob destination_root/*/hh/rest.  The glob
scans every set under the root, the in-progress set included; the
model fixes the directory order so that sibling sets are scanned
before the in-progress set. -/
def globOf (peers dest : List (String × Nat)) (h : String) : Option FileInfo :=
  match lookupSize peers h with
  | some sz => some ⟨true, sz⟩
  | none => (lookupSize dest h).map (fun sz => ⟨true, sz⟩)

/-- One ensure-block call within a run: build the linkOrCreateBlock
inputs from the current destination state, run it (the write count
always equals the block length here), and grow the state when the
call's actions created the target file.  The error branch is
unreachable because written = len. -/
def stepBlock (dryRun : Bool) (peers dest : List (String × Nat))
    (h : String) (len : Nat) : BlockResult × List (String × Nat) :=
  match linkOrCreateBlock ⟨dryRun, true, targetOf dest h, globOf peers dest h, len⟩ h len with
  | .ok r =>
    (r.1, if r.2.any (fun a => isWrite a || isLink a) then (h, len) :: dest else dest)
  | .error _ => (.Created, dest)

/-- The classifications of a sequence of ensure-block calls starting
from a given destination-set state. -/
def runBlocks (dryRun : Bool) (peers : List (String × Nat)) :
    List (String × Nat) → List (String × Nat) → List BlockResult
  | _, [] => []
  | dest, (h, len) :: calls =>
    (stepBlock dryRun peers dest h len).1 ::
      runBlocks dryRun peers (stepBlock dryRun peers dest h len).2 calls

/-- The destination-set setup of backup(): in dry-run mode the catalog
is an in-memory database and nothing is made on disk; otherwise the
in-progress set directory is created and the database file inside it. -/
def backupSetupActions (dryRun : Bool) : List FsAction :=
  if dryRun then [] else [.mkdirSet, .createDatabase]

/-- renameToDateString from backup.py: in dry-run mode the rename of
the in-progress set to the date-stamped name is skipped. -/
def renameActions (dryRun : Bool) (src dst : String) : List FsAction :=
  if dryRun then [] else [.rename src dst]

/-- Filesystem actions of a linkOrCreateBlock result (none when the
call failed, since the session aborts there). -/
def locbActions (r : Except String (BlockResult × List FsAction)) : List FsAction :=
  match r with
  | .ok p => p.2
  | .error _ => []

/-- Decidable equality of Except values, used to evaluate the model
on concrete inputs. -/
instance {ε α : Type} [DecidableEq ε] [DecidableEq α] : DecidableEq (Except ε α) :=
  fun x y =>
    match x, y with
    | .error a, .error b =>
      if h : a = b then .isTrue (by rw [h])
      else .isFalse (by intro hc; cases hc; exact h rfl)
    | .error _, .ok _ => .isFalse (by intro hc; cases hc)
    | .ok _, .error _ => .isFalse (by intro hc; cases hc)
    | .ok a, .ok b =>
      if h : a = b then .isTrue (by rw [h])
      else .isFalse (by intro hc; cases hc; exact h rfl)

end Backup

/-- Claim C7: for every unsigned 64-bit integer x (0 ≤ x < 2^64),
decode64 (encode64 x) = x, encode64 x lies in the signed 64-bit range
[-2^63, 2^63), and encode64 is injective on the unsigned 64-bit range,
so equality comparisons on encoded values agree with equality on the
original unsigned mtime_ns values. -/
theorem Backup.encode64_decode64_roundtrip (x : Nat) (hx : x < 2 ^ 64) :
    Backup.decode64 (Backup.encode64 x) = x ∧
    -(2 ^ 63) ≤ Backup.encode64 x ∧ Backup.encode64 x < 2 ^ 63 ∧
    ∀ y : Nat, y < 2 ^ 64 → (Backup.encode64 x = Backup.encode64 y ↔ x = y) := by
  have hx' : ((x : Int)) % (2 ^ 64 : Int) = (x : Int) := by omega
  refine ⟨?_, ?_, ?_, ?_⟩
  · unfold Backup.encode64 Backup.decode64
    simp only [hx']
    split_ifs <;> omega
  · unfold Backup.encode64
    simp only [hx']
    split_ifs <;> omega
  · unfold Backup.encode64
    simp only [hx']
    split_ifs <;> omega
  · intro y hy
    have hy' : ((y : Int)) % (2 ^ 64 : Int) = (y : Int) := by omega
    unfold Backup.encode64
    simp only [hx', hy']
    split_ifs <;> omega

/-- Witness for C7 at the concrete value 2^63 + 5, which exercises the
wrap-around branch of the encoding. -/
theorem Backup.encode64_decode64_roundtrip_witness :
    Backup.decode64 (Backup.encode64 (2 ^ 63 + 5 : Nat)) = (2 ^ 63 + 5 : Nat) :=
  (Backup.encode64_decode64_roundtrip (2 ^ 63 + 5) (by norm_num)).1

/-- The reuse loop inserts exactly the reference block rows, in order,
whatever the filesystem says about each hash. -/
theorem Backup.reuseLoop_rows (d : Bool) (env : Backup.RefLinkEnv) :
    ∀ bs : List Backup.BlockRow, (Backup.reuseLoop d env bs).1 = bs := by
  intro bs
  induction bs with
  | nil => rfl
  | cons b rest ih => simp [Backup.reuseLoop, ih]

/-- The reuse flag of backupFile is exactly the shouldReuse decision. -/
theorem Backup.backupFile_reused_eq (rid : Nat) (p : String) (st : Backup.StatInfo)
    (env : Backup.BackupFileEnv) :
    (Backup.backupFile rid p st env).reused = Backup.shouldReuse rid env.refDb p st := by
  unfold Backup.backupFile Backup.shouldReuse
  rcases h0 : (rid == 0) with _ | _
  · simp only [h0, Bool.false_eq_true, if_false]
    rcases hq : Backup.refQueryF env.refDb rid p with _ | row
    · simp only [hq]
      split <;> rfl
    · simp only [hq]
      rcases hc : (row.lastmod == Backup.encode64 st.mtime_ns && row.size == st.size)
          with _ | _
      · simp only [hc, Bool.false_eq_true, if_false]
        split <;> rfl
      · simp [hc]
  · simp only [h0, if_true]
    split <;> rfl

/-- When reuse is not taken and the open succeeds, the block rows come
from the rehash loop over the read trace. -/
theorem Backup.backupFile_rehash_blocks (rid : Nat) (p : String) (st : Backup.StatInfo)
    (env : Backup.BackupFileEnv)
    (hre : Backup.shouldReuse rid env.refDb p st = false)
    (ho : env.openFails = false) :
    (Backup.backupFile rid p st env).blocks = Backup.rehashRows env.hashAt env.reads 0 := by
  unfold Backup.backupFile
  unfold Backup.shouldReuse at hre
  rcases h0 : (rid == 0) with _ | _
  · rw [h0] at hre
    simp only [h0, Bool.false_eq_true, if_false] at hre ⊢
    rcases hq : Backup.refQueryF env.refDb rid p with _ | row
    · simp [hq, ho]
    · rw [hq] at hre
      have hre' : ¬(row.lastmod = Backup.encode64 st.mtime_ns ∧ row.size = st.size) := by
        simpa using hre
      simp [hq, hre', ho]
  · simp only [h0, if_true]
    simp [ho]

/-- The shouldReuse decision holds exactly when the reference catalog
contains a matching type-F row, provided the catalog respects the
unique(source, path) constraint of the schema. -/
theorem Backup.shouldReuse_iff (rid : Nat) (db : List Backup.FileRow) (p : String)
    (st : Backup.StatInfo) (hrid : rid ≠ 0)
    (hu : ∀ r1 ∈ db, ∀ r2 ∈ db, r1.source = r2.source → r1.path = r2.path → r1 = r2) :
    Backup.shouldReuse rid db p st = true ↔
      ∃ row ∈ db, row.source = rid ∧ row.path = p ∧ row.type = 'F' ∧
        row.lastmod = Backup.encode64 st.mtime_ns ∧ row.size = st.size := by
  unfold Backup.shouldReuse
  have h0 : (rid == 0) = false := by simpa using hrid
  simp only [h0, Bool.false_eq_true, if_false]
  rcases hq : Backup.refQueryF db rid p with _ | r
  · simp only [Backup.refQueryF] at hq
    rw [List.find?_eq_none] at hq
    constructor
    · intro h; cases h
    · rintro ⟨row, hm, hs, hp, ht, -, -⟩
      exact absurd (by simp [hs, hp, ht]) (hq row hm)
  · have hpred := List.find?_some hq
    have hmem := List.mem_of_find?_eq_some hq
    simp only [Bool.and_eq_true, beq_iff_eq] at hpred
    obtain ⟨⟨hrs, hrp⟩, hrt⟩ := hpred
    constructor
    · intro h
      simp only [Bool.and_eq_true, beq_iff_eq] at h
      exact ⟨r, hmem, hrs, hrp, hrt, h.1, h.2⟩
    · rintro ⟨row, hm, hs, hp, ht, hl, hsz⟩
      have : r = row := hu r hmem row hm (by rw [hrs, hs]) (by rw [hrp, hp])
      subst this
      simp [hl, hsz]

/-- Claim C3: with a nonzero reference source id and a reference
catalog satisfying the unique(source, path) schema constraint, the
File Engine takes the whole-file reuse path (copying the reference
block rows wholesale) exactly when the reference catalog has a type-F
row for the same relative path whose lastmod equals the encoded stat
mtime and whose size equals the stat size; in every other case it
falls through and rehashes the file block by block. -/
theorem Backup.backupFile_reuse_iff (rid : Nat) (p : String) (st : Backup.StatInfo)
    (env : Backup.BackupFileEnv) (hrid : rid ≠ 0)
    (hu : ∀ r1 ∈ env.refDb, ∀ r2 ∈ env.refDb,
      r1.source = r2.source → r1.path = r2.path → r1 = r2) :
    ((Backup.backupFile rid p st env).reused = true ↔
      ∃ row ∈ env.refDb, row.source = rid ∧ row.path = p ∧ row.type = 'F' ∧
        row.lastmod = Backup.encode64 st.mtime_ns ∧ row.size = st.size) ∧
    (∀ row ∈ env.refDb, row.source = rid → row.path = p → row.type = 'F' →
      row.lastmod = Backup.encode64 st.mtime_ns → row.size = st.size →
      (Backup.backupFile rid p st env).blocks = env.refBlocksOf row.id) ∧
    ((Backup.backupFile rid p st env).reused = false → env.openFails = false →
      (Backup.backupFile rid p st env).blocks =
        Backup.rehashRows env.hashAt env.reads 0) := by
  refine ⟨?_, ?_, ?_⟩
  · rw [Backup.backupFile_reused_eq]
    exact Backup.shouldReuse_iff rid env.refDb p st hrid hu
  · intro row hm hs hp ht hl hsz
    have hq : Backup.refQueryF env.refDb rid p = some row := by
      unfold Backup.refQueryF
      rcases hfind : env.refDb.find? (fun r => r.source == rid && r.path == p && r.type == 'F')
          with _ | r
      · rw [List.find?_eq_none] at hfind
        exact absurd (by simp [hs, hp, ht]) (hfind row hm)
      · have hpred := List.find?_some hfind
        have hmem := List.mem_of_find?_eq_some hfind
        simp only [Bool.and_eq_true, beq_iff_eq] at hpred
        obtain ⟨⟨hrs, hrp⟩, -⟩ := hpred
        have : r = row := hu r hmem row hm (by rw [hrs, hs]) (by rw [hrp, hp])
        rw [hfind, this]
    unfold Backup.backupFile
    have h0 : (rid == 0) = false := by simpa using hrid
    simp [h0, hq, hl, hsz, Backup.reuseLoop_rows]
  · intro hre ho
    rw [Backup.backupFile_reused_eq] at hre
    exact Backup.backupFile_rehash_blocks rid p st env hre ho

/-- Witness for C3: a one-row reference catalog with a matching row
makes the engine reuse and copy the reference block rows. -/
theorem Backup.backupFile_reuse_iff_witness :
    (Backup.backupFile 1 "/a.txt" ⟨7, 6⟩
      { dryRun := true, refDb := [⟨4, 1, "/a.txt", 'F', 7, 6⟩],
        refBlocksOf := fun i => if i = 4 then [⟨0, 6, "h0"⟩] else [],
        linkEnv := ⟨fun _ => true, fun _ => .alreadyExists⟩,
        openFails := false, reads := [], hashAt := fun _ => "h0" }).blocks =
      [⟨0, 6, "h0"⟩] := by
  have h := Backup.backupFile_reuse_iff 1 "/a.txt" ⟨7, 6⟩
    { dryRun := true, refDb := [⟨4, 1, "/a.txt", 'F', 7, 6⟩],
      refBlocksOf := fun i => if i = 4 then [⟨0, 6, "h0"⟩] else [],
      linkEnv := ⟨fun _ => true, fun _ => .alreadyExists⟩,
      openFails := false, reads := [], hashAt := fun _ => "h0" }
    (by norm_num)
    (by
      rintro r1 h1 r2 h2 - -
      simp only [List.mem_singleton] at h1 h2
      rw [h1, h2])
  have hb := h.2.1 ⟨4, 1, "/a.txt", 'F', 7, 6⟩ (by simp) rfl rfl rfl
    (by simp [Backup.encode64]) rfl
  simpa using hb

/-- The ideal rehash of a size produces no rows exactly for size 0. -/
theorem Backup.rehash_ideal_nil (hashAt : Nat → String) (off k : Nat) :
    Backup.rehashRows hashAt (Backup.idealReads k) off = [] ↔ k = 0 := by
  constructor
  · intro h
    by_contra hk
    rw [Backup.idealReads, if_neg hk] at h
    have hm : (min Backup.BLOCK_SIZE k == 0) = false := by
      simp [Backup.BLOCK_SIZE]
      omega
    simp [Backup.rehashRows, hm] at h
  · intro h
    subst h
    rw [Backup.idealReads]
    simp [Backup.rehashRows]

/-- The size field of backupFile is always the stat size. -/
theorem Backup.backupFile_size (rid : Nat) (p : String) (st : Backup.StatInfo)
    (env : Backup.BackupFileEnv) :
    (Backup.backupFile rid p st env).size = st.size := by
  unfold Backup.backupFile
  rcases h0 : (rid == 0) with _ | _
  · simp only [h0, Bool.false_eq_true, if_false]
    rcases hq : Backup.refQueryF env.refDb rid p with _ | row
    · simp only [hq]
      split <;> rfl
    · simp only [hq]
      rcases hc : (row.lastmod == Backup.encode64 st.mtime_ns && row.size == st.size)
          with _ | _
      · simp only [hc, Bool.false_eq_true, if_false]
        split <;> rfl
      · simp [hc]
  · simp only [h0, if_true]
    split <;> rfl

/-- Rehashing an ideally read file of any size yields contiguous rows
from offset 0 whose sizes sum to the file size, are bounded by
BLOCK_SIZE, and are exactly BLOCK_SIZE except possibly the last. -/
theorem Backup.idealRehash_invariant (hashAt : Nat → String) :
    ∀ sz off,
      Backup.Contiguous off (Backup.rehashRows hashAt (Backup.idealReads sz) off) ∧
      Backup.sumSizes (Backup.rehashRows hashAt (Backup.idealReads sz) off) = sz ∧
      (∀ b ∈ Backup.rehashRows hashAt (Backup.idealReads sz) off,
        b.size ≤ Backup.BLOCK_SIZE) ∧
      Backup.nonFinalFull (Backup.rehashRows hashAt (Backup.idealReads sz) off) := by
  intro sz
  induction sz using Nat.strong_induction_on with
  | _ sz ih =>
    intro off
    by_cases h : sz = 0
    · subst h
      rw [Backup.idealReads]
      simp [Backup.rehashRows, Backup.Contiguous, Backup.sumSizes, Backup.nonFinalFull]
    · rw [Backup.idealReads, if_neg h]
      have hBpos : 0 < Backup.BLOCK_SIZE := by simp [Backup.BLOCK_SIZE]
      have hmpos : 0 < min Backup.BLOCK_SIZE sz := by omega
      have hm : (min Backup.BLOCK_SIZE sz == 0) = false := by
        simp
        omega
      have hlt : sz - min Backup.BLOCK_SIZE sz < sz := by omega
      obtain ⟨ihc, ihs, ihb, ihf⟩ := ih (sz - min Backup.BLOCK_SIZE sz) hlt
        (off + min Backup.BLOCK_SIZE sz)
      simp only [Backup.rehashRows, hm, Bool.false_eq_true, if_false]
      refine ⟨⟨rfl, ihc⟩, ?_, ?_, ?_⟩
      · simp only [Backup.sumSizes, List.map_cons, List.sum_cons] at ihs ⊢
        omega
      · intro b hb
        rw [List.mem_cons] at hb
        rcases hb with hb | hb
        · simp [hb]
        · exact ihb b hb
      · rcases hrest : Backup.rehashRows hashAt
            (Backup.idealReads (sz - min Backup.BLOCK_SIZE sz))
            (off + min Backup.BLOCK_SIZE sz) with _ | ⟨c, t⟩
        · exact trivial
        · have hne : sz - min Backup.BLOCK_SIZE sz ≠ 0 := by
            intro hzero
            rw [hzero] at hrest
            rw [(Backup.rehash_ideal_nil hashAt (off + min Backup.BLOCK_SIZE sz) 0).2 rfl]
              at hrest
            cases hrest
          have hfull : min Backup.BLOCK_SIZE sz = Backup.BLOCK_SIZE := by omega
          rw [hrest] at ihf
          exact ⟨hfull, ihf⟩

/-- Claim C4 (amended): for a File row of type F produced by the
rehash path of a run in which the os.open succeeded and every read
returned min(BLOCK_SIZE, bytes remaining) until EOF, the Block rows
form a contiguous gap-free sequence from offset 0, every block size is
at most BLOCK_SIZE, every non-final block size is exactly BLOCK_SIZE,
and the sizes sum to the File row's size.  (The unamended claim fails
when the open of the source file fails: the File row stays with no
Block rows.) -/
theorem Backup.backupFile_blocks_invariant (rid : Nat) (p : String)
    (st : Backup.StatInfo) (env : Backup.BackupFileEnv)
    (hre : Backup.shouldReuse rid env.refDb p st = false)
    (ho : env.openFails = false)
    (hreads : env.reads = Backup.idealReads st.size) :
    Backup.blocksInvariant (Backup.backupFile rid p st env) := by
  have hb := Backup.backupFile_rehash_blocks rid p st env hre ho
  have hs := Backup.backupFile_size rid p st env
  rw [hreads] at hb
  obtain ⟨hc, hsum, hbound, hfull⟩ := Backup.idealRehash_invariant env.hashAt st.size 0
  exact ⟨by rw [hb, hs, hsum], by rw [hb]; exact hc, by rw [hb]; exact hbound,
    by rw [hb]; exact hfull⟩

/-- Witness for the amended C4 at a concrete file of BLOCK_SIZE + 1
bytes (two blocks, sizes BLOCK_SIZE and 1). -/
theorem Backup.backupFile_blocks_invariant_witness :
    Backup.blocksInvariant (Backup.backupFile 0 "/f" ⟨0, Backup.BLOCK_SIZE + 1⟩
      { dryRun := false, refDb := [], refBlocksOf := fun _ => [],
        linkEnv := ⟨fun _ => true, fun _ => .ok⟩, openFails := false,
        reads := Backup.idealReads (Backup.BLOCK_SIZE + 1), hashAt := fun _ => "h" }) :=
  Backup.backupFile_blocks_invariant 0 "/f" ⟨0, Backup.BLOCK_SIZE + 1⟩ _ rfl rfl rfl

/-- Counterexample to C4 as stated: a run in which the os.open of a
5-byte source file fails leaves the type-F File row with no Block
rows, so the block sizes do not sum to the File row's size. -/
theorem Backup.backupFile_blocks_invariant_counterexample :
    ¬ Backup.blocksInvariant (Backup.backupFile 0 "/f" ⟨0, 5⟩
      { dryRun := false, refDb := [], refBlocksOf := fun _ => [],
        linkEnv := ⟨fun _ => true, fun _ => .ok⟩, openFails := true,
        reads := [], hashAt := fun _ => "h" }) := by
  intro h
  have h1 := h.1
  have e1 : Backup.sumSizes (Backup.backupFile 0 "/f" ⟨0, 5⟩
      { dryRun := false, refDb := [], refBlocksOf := fun _ => [],
        linkEnv := ⟨fun _ => true, fun _ => .ok⟩, openFails := true,
        reads := [], hashAt := fun _ => "h" }).blocks = 0 := rfl
  have e2 : (Backup.backupFile 0 "/f" ⟨0, 5⟩
      { dryRun := false, refDb := [], refBlocksOf := fun _ => [],
        linkEnv := ⟨fun _ => true, fun _ => .ok⟩, openFails := true,
        reads := [], hashAt := fun _ => "h" }).size = 5 := rfl
  rw [e1, e2] at h1
  exact absurd h1 (by norm_num)

/-- The reuse decision and the catalog rows backupFile produces do not
depend on the dry-run flag (only filesystem actions and logging do). -/
theorem Backup.backupFile_dryRun_independent (rid : Nat) (p : String)
    (st : Backup.StatInfo) (env : Backup.BackupFileEnv) (d : Bool) :
    ((Backup.backupFile rid p st { env with dryRun := d }).reused =
      (Backup.backupFile rid p st env).reused) ∧
    ((Backup.backupFile rid p st { env with dryRun := d }).blocks =
      (Backup.backupFile rid p st env).blocks) := by
  constructor
  · rw [Backup.backupFile_reused_eq, Backup.backupFile_reused_eq]
  · unfold Backup.backupFile
    dsimp only
    rcases h0 : (rid == 0) with _ | _
    · simp only [h0, Bool.false_eq_true, if_false]
      rcases hq : Backup.refQueryF env.refDb rid p with _ | row
      · simp only [hq]
      · simp only [hq]
        rcases hc : (row.lastmod == Backup.encode64 st.mtime_ns && row.size == st.size)
            with _ | _
        · simp only [hc, Bool.false_eq_true, if_false]
        · simp only [hc, if_true]
          simp [Backup.reuseLoop_rows]
    · simp only [h0, if_true]

/-- One ensure-block call whose target block file is not already in
the destination set classifies the same in a dry run and a real run. -/
theorem Backup.stepBlock_fresh_agree (peers dest : List (String × Nat))
    (h : String) (len : Nat) (ht : Backup.targetOf dest h = none) :
    (Backup.stepBlock true peers dest h len).1 =
      (Backup.stepBlock false peers dest h len).1 := by
  unfold Backup.stepBlock Backup.linkOrCreateBlock
  rw [ht]
  rcases hg : Backup.globMatches (Backup.globOf peers dest h) len with _ | _
  · simp [hg, Backup.targetMatches]
  · simp [hg, Backup.targetMatches]

/-- Claim C6 (amended): with the same pre-existing destination state,
a dry run makes the same per-file decisions (reuse versus rehash, and
the same catalog rows) and classifies every block whose target file is
not already present in the destination set exactly as the real run
does; but for a block already produced earlier in the same run the
real run reports Duplicate while the dry run, whose intra-set
duplicate check is skipped and whose state never grows, classifies it
again via the peer search. -/
theorem Backup.dryRun_same_decisions (peers dest : List (String × Nat))
    (h : String) (len : Nat) (rid : Nat) (p : String) (st : Backup.StatInfo)
    (env : Backup.BackupFileEnv) (d : Bool)
    (ht : Backup.targetOf dest h = none) :
    (Backup.stepBlock true peers dest h len).1 =
      (Backup.stepBlock false peers dest h len).1 ∧
    ((Backup.backupFile rid p st { env with dryRun := d }).reused =
      (Backup.backupFile rid p st env).reused) ∧
    ((Backup.backupFile rid p st { env with dryRun := d }).blocks =
      (Backup.backupFile rid p st env).blocks) :=
  ⟨Backup.stepBlock_fresh_agree peers dest h len ht,
   Backup.backupFile_dryRun_independent rid p st env d⟩

/-- Witness for the amended C6 at a fresh hash over a nonempty
pre-existing state. -/
theorem Backup.dryRun_same_decisions_witness :
    (Backup.stepBlock true [] [("cd34", 3)] "ab12" 5).1 =
      (Backup.stepBlock false [] [("cd34", 3)] "ab12" 5).1 :=
  (Backup.dryRun_same_decisions [] [("cd34", 3)] "ab12" 5 0 "/f" ⟨0, 0⟩
    { dryRun := false, refDb := [], refBlocksOf := fun _ => [],
      linkEnv := ⟨fun _ => true, fun _ => .ok⟩, openFails := false,
      reads := [], hashAt := fun _ => "h" } true (by decide)).1

/-- Counterexample to C6 as stated: from an empty destination with no
peer sets, backing up the same 5-byte block twice classifies it as
Created then Duplicate in a real run, but Created twice in a dry run
(the duplicate check is guarded by the dry-run flag and the dry run
writes nothing for the glob to find), so the counters differ. -/
theorem Backup.dryRun_same_decisions_counterexample :
    Backup.runBlocks false [] [] [("ab12", 5), ("ab12", 5)] =
      [.Created, .Duplicate] ∧
    Backup.runBlocks true [] [] [("ab12", 5), ("ab12", 5)] =
      [.Created, .Created] ∧
    Backup.runBlocks true [] [] [("ab12", 5), ("ab12", 5)] ≠
      Backup.runBlocks false [] [] [("ab12", 5), ("ab12", 5)] := by
  decide

/-- Claim C5: in dry-run mode no filesystem object under the
destination root is created, modified, or deleted: linkOrCreateBlock
performs no action (no shard mkdir, no hard link, no write), the
whole-file reuse loop performs no action (linkReferenceBlock is not
called), backupFile performs no action, the session setup makes
neither the set directory nor the catalog database file, and the final
rename is skipped. -/
theorem Backup.dryRun_no_mutations :
    (∀ (env : Backup.LocbEnv) (h : String) (len : Nat), env.dryRun = true →
      Backup.locbActions (Backup.linkOrCreateBlock env h len) = []) ∧
    (∀ (env : Backup.RefLinkEnv) (bs : List Backup.BlockRow),
      (Backup.reuseLoop true env bs).2.2 = []) ∧
    (∀ (rid : Nat) (p : String) (st : Backup.StatInfo) (env : Backup.BackupFileEnv),
      env.dryRun = true → (Backup.backupFile rid p st env).actions = []) ∧
    Backup.backupSetupActions true = [] ∧
    (∀ src dst, Backup.renameActions true src dst = []) := by
  have hloop : ∀ (env : Backup.RefLinkEnv) (bs : List Backup.BlockRow),
      (Backup.reuseLoop true env bs).2.2 = [] := by
    intro env bs
    induction bs with
    | nil => rfl
    | cons b rest ih => simp [Backup.reuseLoop, ih]
  refine ⟨?_, hloop, ?_, rfl, fun _ _ => rfl⟩
  · intro env h len hdry
    unfold Backup.linkOrCreateBlock Backup.locbActions
    simp only [hdry]
    rcases hg : Backup.globMatches env.globFirst len with _ | _
    · simp [hg]
    · simp [hg]
  · intro rid p st env hdry
    unfold Backup.backupFile
    rcases h0 : (rid == 0) with _ | _
    · simp only [h0, Bool.false_eq_true, if_false]
      rcases hq : Backup.refQueryF env.refDb rid p with _ | row
      · simp only [hq]
        split <;> rfl
      · simp only [hq]
        rcases hc : (row.lastmod == Backup.encode64 st.mtime_ns && row.size == st.size)
            with _ | _
        · simp only [hc, Bool.false_eq_true, if_false]
          split <;> rfl
        · simp only [hc, if_true]
          simp [hdry, hloop]
    · simp only [h0, if_true]
      split <;> rfl

/-- Witness for C5: a concrete dry-run call of linkOrCreateBlock with
an absent target and a matching peer performs no action. -/
theorem Backup.dryRun_no_mutations_witness :
    Backup.locbActions (Backup.linkOrCreateBlock
      ⟨true, false, none, some ⟨true, 5⟩, 5⟩ "ab12" 5) = [] :=
  Backup.dryRun_no_mutations.1 ⟨true, false, none, some ⟨true, 5⟩, 5⟩ "ab12" 5 rfl

/-- Claim C1 (code bug evidence): the walker stats a child with a
symlink-following stat, so a symbolic link to a regular file is
dispatched to the File Engine, not to the symlink handler, and no
child whatsoever can reach the symlink handler: S_ISLNK is never true
of a followed stat, making the backupSymlink branch dead code.  (A
dangling symlink instead raises FileNotFoundError.) -/
theorem Backup.dispatchChild_symlink_bug :
    Backup.dispatchChild ⟨.symlink, some .regular⟩ = .ok .toFileEngine ∧
    Backup.dispatchChild ⟨.symlink, some .regular⟩ ≠ .ok .toSymlinkHandler ∧
    ∀ c : Backup.ChildEntry, Backup.dispatchChild c ≠ .ok .toSymlinkHandler := by
  refine ⟨rfl, by simp [Backup.dispatchChild, Backup.statKind], ?_⟩
  rintro ⟨lk, tk⟩ h
  rcases tk with _ | rk
  · cases lk <;> simp [Backup.dispatchChild, Backup.statKind] at h
  · cases lk <;> cases rk <;> simp [Backup.dispatchChild, Backup.statKind] at h

/-- Claim C8: in the whole-file reuse loop of a real run, every
reference block row is inserted into the destination catalog in order
regardless of the link result, and a Missing link result produces the
two log lines (from linkReferenceBlock and from backupFile) while the
loop continues to the remaining rows without aborting. -/
theorem Backup.reuseLoop_missing_spec (env : Backup.RefLinkEnv)
    (bs : List Backup.BlockRow) :
    (Backup.reuseLoop false env bs).1 = bs ∧
    ∀ b ∈ bs, env.outcomeOf b.hash = .missing →
      ("hash file not found in reference " ++ b.hash) ∈ (Backup.reuseLoop false env bs).2.1 ∧
      ("block file disappeared " ++ b.hash) ∈ (Backup.reuseLoop false env bs).2.1 := by
  refine ⟨Backup.reuseLoop_rows false env bs, ?_⟩
  induction bs with
  | nil => intro b hb; cases hb
  | cons a rest ih =>
    intro b hb hm
    rw [List.mem_cons] at hb
    rcases hb with hb | hb
    · subst hb
      simp [Backup.reuseLoop, Backup.linkReferenceBlock, hm]
    · have := ih b hb hm
      simp only [Backup.reuseLoop, List.mem_append]
      exact ⟨Or.inr this.1, Or.inr this.2⟩

/-- Witness for C8: one reference row whose block file is missing is
still inserted and both log lines appear. -/
theorem Backup.reuseLoop_missing_spec_witness :
    (Backup.reuseLoop false ⟨fun _ => true, fun _ => .missing⟩ [⟨0, 6, "hh"⟩]).1 =
      [⟨0, 6, "hh"⟩] ∧
    ("hash file not found in reference hh") ∈
      (Backup.reuseLoop false ⟨fun _ => true, fun _ => .missing⟩ [⟨0, 6, "hh"⟩]).2.1 :=
  ⟨(Backup.reuseLoop_missing_spec ⟨fun _ => true, fun _ => .missing⟩ [⟨0, 6, "hh"⟩]).1,
   ((Backup.reuseLoop_missing_spec ⟨fun _ => true, fun _ => .missing⟩ [⟨0, 6, "hh"⟩]).2
      ⟨0, 6, "hh"⟩ (by simp) rfl).1⟩

/-- Claim C10: in the walker's child loop only PermissionError is
caught (the child is skipped, the loop continues with the rest); any
other OS error raised at that point propagates out of the loop, and
the stat of a dangling symlink is such an error (FileNotFoundError),
because the walker's stat follows symlink targets. -/
theorem Backup.walkChildren_spec :
    (∀ e : Backup.OSErrorKind, e ≠ .permission →
      Backup.handleChild (.error e) = .error e) ∧
    Backup.handleChild (.error .permission) = .ok () ∧
    (∀ pre rest : List (Except Backup.OSErrorKind Unit),
      (∀ r ∈ pre, Backup.handleChild r = .ok ()) →
      Backup.walkChildren (pre ++ .error .permission :: rest) =
        Backup.walkChildren rest) ∧
    (∀ (pre rest : List (Except Backup.OSErrorKind Unit)) (e : Backup.OSErrorKind),
      e ≠ .permission →
      (∀ r ∈ pre, Backup.handleChild r = .ok ()) →
      Backup.walkChildren (pre ++ .error e :: rest) = .error e) ∧
    Backup.statKind ⟨.symlink, none⟩ = .error .fileNotFound := by
  refine ⟨?_, rfl, ?_, ?_, rfl⟩
  · intro e he
    cases e
    · exact absurd rfl he
    · rfl
    · rfl
  · intro pre rest hpre
    induction pre with
    | nil => simp [Backup.walkChildren, Backup.handleChild]
    | cons a t ih =>
      have ha := hpre a (by simp)
      simp only [List.cons_append, Backup.walkChildren, ha]
      exact ih (fun r hr => hpre r (List.mem_cons_of_mem a hr))
  · intro pre rest e he hpre
    induction pre with
    | nil =>
      simp only [List.nil_append, Backup.walkChildren]
      cases e
      · exact absurd rfl he
      · rfl
      · rfl
    | cons a t ih =>
      have ha := hpre a (by simp)
      simp only [List.cons_append, Backup.walkChildren, ha]
      exact ih (fun r hr => hpre r (List.mem_cons_of_mem a hr))

/-- Witness for C10: a permission error on the first child is skipped
while a file-not-found error on the second aborts the loop. -/
theorem Backup.walkChildren_spec_witness :
    Backup.walkChildren [.error .permission, .error .fileNotFound] =
      .error .fileNotFound := by
  have h := Backup.walkChildren_spec
  have h1 := h.2.2.1 [] [Except.error Backup.OSErrorKind.fileNotFound]
    (fun r hr => absurd hr (by simp))
  have h2 := h.2.2.2.1 [] [] Backup.OSErrorKind.fileNotFound (by decide)
    (fun r hr => absurd hr (by simp))
  rw [List.nil_append] at h1 h2
  calc Backup.walkChildren [.error .permission, .error .fileNotFound]
      = Backup.walkChildren [.error .fileNotFound] := h1
    _ = .error .fileNotFound := h2

/-- The last element of a list is a member. -/
theorem Backup.mem_of_getLast {α : Type} :
    ∀ (l : List α) (a : α), l.getLast? = some a → a ∈ l := by
  intro l
  induction l with
  | nil => intro a h; cases h
  | cons x t ih =>
    intro a h
    rcases t with _ | ⟨y, t2⟩
    · have : x = a := by
        have h1 : some x = some a := h
        injection h1
      simp [this]
    · rw [List.getLast?_cons_cons] at h
      exact List.mem_cons_of_mem x (ih a h)

/-- In a pairwise-ordered list, every element is the last one or is
related to it. -/
theorem Backup.pairwise_getLast {α : Type} (r : α → α → Prop) :
    ∀ (l : List α), List.Pairwise r l → ∀ m, l.getLast? = some m →
      ∀ y ∈ l, y = m ∨ r y m := by
  intro l
  induction l with
  | nil => intro _ m hm; cases hm
  | cons x t ih =>
    intro hp m hm y hy
    rcases t with _ | ⟨z, t2⟩
    · have hxm : x = m := by
        have h1 : some x = some m := hm
        injection h1
      rw [List.mem_singleton] at hy
      exact Or.inl (hy.trans hxm)
    · rw [List.getLast?_cons_cons] at hm
      have hmem : m ∈ z :: t2 := Backup.mem_of_getLast _ m hm
      rw [List.mem_cons] at hy
      rcases hy with hy | hy
      · subst hy
        exact Or.inr ((List.pairwise_cons.mp hp).1 m hmem)
      · exact ih (List.pairwise_cons.mp hp).2 m hm y hy

/-- keyedOf keeps the names in order. -/
theorem Backup.keyedOf_fst :
    ∀ (ns : List String) (l), Backup.keyedOf ns = some l → l.map Prod.fst = ns := by
  intro ns
  induction ns with
  | nil =>
    intro l h
    have h1 : some ([] : List (String × (String × Int))) = some l := h
    injection h1 with h1
    rw [← h1]
    rfl
  | cons n rest ih =>
    intro l h
    unfold Backup.keyedOf at h
    rcases hk : Backup.sortkey n with _ | k <;> rw [hk] at h
    · cases h
    · rcases hr : Backup.keyedOf rest with _ | t <;> rw [hr] at h
      · cases h
      · injection h with h
        rw [← h]
        simp [ih t hr]

/-- keyedOf pairs every name with its own sort key. -/
theorem Backup.keyedOf_key :
    ∀ (ns : List String) (l), Backup.keyedOf ns = some l →
      ∀ p ∈ l, Backup.sortkey p.1 = some p.2 := by
  intro ns
  induction ns with
  | nil =>
    intro l h p hp
    have h1 : some ([] : List (String × (String × Int))) = some l := h
    injection h1 with h1
    rw [← h1] at hp
    cases hp
  | cons n rest ih =>
    intro l h p hp
    unfold Backup.keyedOf at h
    rcases hk : Backup.sortkey n with _ | k <;> rw [hk] at h
    · cases h
    · rcases hr : Backup.keyedOf rest with _ | t <;> rw [hr] at h
      · cases h
      · injection h with h
        rw [← h] at hp
        rw [List.mem_cons] at hp
        rcases hp with hp | hp
        · rw [hp]
          exact hk
        · exact ih t hr p hp

/-- Claim C9: the reference set is the qualifying child (name matching
the digit glob, and a directory) whose (first dash field, serial) key
is greatest under Python tuple comparison; with no qualifying child no
reference set is selected.  Stated over any directory listing: when
the selection returns a name, that name qualifies and its key is at
least the key of every qualifying name. -/
theorem Backup.selectReferenceBackupSet_spec (children : List (String × Bool)) :
    (Backup.selectReferenceBackupSet children = .ok none ↔
      Backup.qualifyingNames children = []) ∧
    ∀ r, Backup.selectReferenceBackupSet children = .ok (some r) →
      r ∈ Backup.qualifyingNames children ∧
      ∀ s ∈ Backup.qualifyingNames children, ∀ ks kr,
        Backup.sortkey s = some ks → Backup.sortkey r = some kr →
        Backup.keyLE ks kr := by
  constructor
  · constructor
    · intro h
      unfold Backup.selectReferenceBackupSet at h
      rcases hk : Backup.keyedOf (Backup.qualifyingNames children) with _ | keyed <;>
        rw [hk] at h
      · cases h
      · injection h with h
        have hnone : (keyed.insertionSort Backup.keyedLE).getLast? = none := by
          rcases hl : (keyed.insertionSort Backup.keyedLE).getLast? with _ | m
          · rfl
          · rw [hl] at h; cases h
        rw [List.getLast?_eq_none_iff] at hnone
        have hperm := List.perm_insertionSort Backup.keyedLE keyed
        rw [hnone] at hperm
        have : keyed = [] := hperm.symm.eq_nil
        rw [this] at hk
        have := Backup.keyedOf_fst (Backup.qualifyingNames children) [] hk
        simpa using this.symm
    · intro h
      unfold Backup.selectReferenceBackupSet
      rw [h]
      rfl
  · intro r hsel
    unfold Backup.selectReferenceBackupSet at hsel
    rcases hk : Backup.keyedOf (Backup.qualifyingNames children) with _ | keyed <;>
      rw [hk] at hsel
    · cases hsel
    · injection hsel with hsel
      rcases hl : (keyed.insertionSort Backup.keyedLE).getLast? with _ | m <;>
        rw [hl] at hsel
      · cases hsel
      · have hrm : m.1 = r := by
          have h1 : some m.1 = some r := hsel
          injection h1
        have hsorted : List.Pairwise Backup.keyedLE (keyed.insertionSort Backup.keyedLE) :=
          List.sorted_insertionSort Backup.keyedLE keyed
        have hmax := Backup.pairwise_getLast Backup.keyedLE _ hsorted m hl
        have hmem_sorted : m ∈ keyed.insertionSort Backup.keyedLE :=
          Backup.mem_of_getLast _ m hl
        have hmem_keyed : m ∈ keyed :=
          (List.perm_insertionSort Backup.keyedLE keyed).subset hmem_sorted
        have hfst := Backup.keyedOf_fst (Backup.qualifyingNames children) keyed hk
        constructor
        · rw [← hrm, ← hfst]
          exact List.mem_map_of_mem Prod.fst hmem_keyed
        · intro s hs ks kr hks hkr
          rw [← hfst] at hs
          rw [List.mem_map] at hs
          obtain ⟨p, hp_mem, hp_fst⟩ := hs
          have hp_key := Backup.keyedOf_key (Backup.qualifyingNames children) keyed hk p hp_mem
          rw [hp_fst, hks] at hp_key
          have hks_eq : ks = p.2 := by injection hp_key
          have hm_key := Backup.keyedOf_key (Backup.qualifyingNames children) keyed hk m hmem_keyed
          rw [hrm, hkr] at hm_key
          have hkr_eq : kr = m.2 := by injection hm_key
          have hp_sorted : p ∈ keyed.insertionSort Backup.keyedLE :=
            ((List.perm_insertionSort Backup.keyedLE keyed).mem_iff).mpr hp_mem
          rcases hmax p hp_sorted with hpm | hpm
          · rw [hks_eq, hkr_eq, hpm]
            exact Or.inr ⟨rfl, le_refl _⟩
          · unfold Backup.keyedLE at hpm
            rw [hks_eq, hkr_eq]
            exact hpm

/-- Witness for C9 on a concrete listing: among the qualifying
children the dash-suffixed 2023 set sorts below the plain 2024 sets
and the greatest key wins. -/
theorem Backup.selectReferenceBackupSet_spec_witness :
    "20240102" ∈ Backup.qualifyingNames
      [("20240101", true), ("20240102", true), ("x", true),
       ("20240102-1", false), ("20231231-5", true)] ∧
    Backup.keyLE ("20231231", 5) ("20240102", 0) :=
  ⟨((Backup.selectReferenceBackupSet_spec
      [("20240101", true), ("20240102", true), ("x", true),
       ("20240102-1", false), ("20231231-5", true)]).2 "20240102" (by decide)).1,
   ((Backup.selectReferenceBackupSet_spec
      [("20240101", true), ("20240102", true), ("x", true),
       ("20240102-1", false), ("20231231-5", true)]).2 "20240102" (by decide)).2
     "20231231-5" (by decide) ("20231231", 5) ("20240102", 0) (by decide) (by decide)⟩

/-- Claim C2: in a real (non dry-run) call of linkOrCreateBlock the
steps run in this order: if the target block file exists as a regular
file of the right size the call returns Duplicate without consulting
the peer glob and without linking or writing; otherwise if the first
glob match is a regular file of the right size a hard link is created
and the call returns LinkedFromPeer without writing; otherwise the
bytes are written (one writeFile action), a written count different
from len is a fatal error, and the call returns Created.  (The source
never inspects the hash/bytes relation or the block length bound, so
the property holds for every hash string and length.) -/
theorem Backup.linkOrCreateBlock_spec (env : Backup.LocbEnv) (hash : String)
    (len : Nat) (hdry : env.dryRun = false) :
    (Backup.targetMatches env.target len = true →
      (∃ acts, Backup.linkOrCreateBlock env hash len = .ok (.Duplicate, acts) ∧
        acts.all (fun a => !Backup.isWrite a && !Backup.isLink a) = true) ∧
      ∀ g, Backup.linkOrCreateBlock { env with globFirst := g } hash len =
           Backup.linkOrCreateBlock env hash len) ∧
    (Backup.targetMatches env.target len = false →
      Backup.globMatches env.globFirst len = true →
      ∃ acts, Backup.linkOrCreateBlock env hash len = .ok (.LinkedFromPeer, acts) ∧
        (∃ s d, Backup.FsAction.hardLink s d ∈ acts) ∧
        acts.all (fun a => !Backup.isWrite a) = true) ∧
    (Backup.targetMatches env.target len = false →
      Backup.globMatches env.globFirst len = false →
      (env.written = len →
        ∃ acts, Backup.linkOrCreateBlock env hash len = .ok (.Created, acts) ∧
          (∃ p, Backup.FsAction.writeFile p len ∈ acts)) ∧
      (env.written ≠ len →
        Backup.linkOrCreateBlock env hash len = .error "short write")) := by
  refine ⟨?_, ?_, ?_⟩
  · intro ht
    constructor
    · refine ⟨if !env.shardDirExists then [.mkdirShard (hash.take 2)] else [], ?_, ?_⟩
      · simp [Backup.linkOrCreateBlock, hdry, ht]
      · split <;> simp [Backup.isWrite, Backup.isLink]
    · intro g
      simp [Backup.linkOrCreateBlock, hdry, ht]
  · intro ht hg
    refine ⟨(if !env.dryRun && !env.shardDirExists then
        [Backup.FsAction.mkdirShard (hash.take 2)] else []) ++
        (if env.dryRun then [] else
        [.hardLink ("peer/" ++ hash.take 2 ++ "/" ++ hash.drop 2)
                   (hash.take 2 ++ "/" ++ hash.drop 2)]), ?_, ?_, ?_⟩
    · simp [Backup.linkOrCreateBlock, hdry, ht, hg]
    · refine ⟨"peer/" ++ hash.take 2 ++ "/" ++ hash.drop 2,
        hash.take 2 ++ "/" ++ hash.drop 2, ?_⟩
      simp [hdry]
    · simp [hdry, Backup.isWrite]
  · intro ht hg
    constructor
    · intro hw
      refine ⟨(if !env.dryRun && !env.shardDirExists then
          [Backup.FsAction.mkdirShard (hash.take 2)] else []) ++
          [.writeFile (hash.take 2 ++ "/" ++ hash.drop 2) len], ?_, ?_⟩
      · simp [Backup.linkOrCreateBlock, hdry, ht, hg, hw]
      · exact ⟨hash.take 2 ++ "/" ++ hash.drop 2, by simp⟩
    · intro hw
      simp [Backup.linkOrCreateBlock, hdry, ht, hg, hw]

/-- Witness for C2: a concrete call whose target already exists with
the right size returns Duplicate. -/
theorem Backup.linkOrCreateBlock_spec_witness :
    ∃ acts, Backup.linkOrCreateBlock ⟨false, true, some ⟨true, 5⟩, none, 5⟩ "ab12" 5 =
      .ok (.Duplicate, acts) ∧
      acts.all (fun a => !Backup.isWrite a && !Backup.isLink a) = true :=
  ((Backup.linkOrCreateBlock_spec ⟨false, true, some ⟨true, 5⟩, none, 5⟩ "ab12" 5 rfl).1
    (by decide)).1
